import Mathlib

/-!
Verification of the anonapi typed parameter and mapping data model.

This file gives a shallow embedding, in Lean 4, of the core data model of
the anonapi repository (anonapi/parameters.py, the batch/job-creation logic
of anonapi/cli/create_commands.py and the placeholder generators of
anonapi/cli/map_commands.py), together with theorems settling the frozen
claims about that code.

Text is modelled as List Char (named Str below) so that splitting and
joining can be reasoned about by structural induction. Python exceptions
are modelled with Except; a Python function that can fall off the end
without a return statement is modelled as returning an Option (none being
Python's implicit None).
-/

namespace Anonapi


/-- Text is modelled as a list of characters. -/
abbrev Str := List Char

/-- Model of Python's s.split(sep, maxsplit=1) when it succeeds: returns the
part before the first occurrence of sep and the part after it, or none when
sep does not occur (in which case the Python two-target unpacking raises
ValueError). -/
def splitFirst (sep : Char) : Str → Option (Str × Str)
  | [] => none
  | c :: rest =>
    if c = sep then some ([], rest)
    else
      match splitFirst sep rest with
      | none => none
      | some (a, b) => some (c :: a, b)

/-! ## Source identifiers (anonapi/parameters.py, SourceIdentifier hierarchy) -/

/-- The concrete identifier classes that SourceIdentifierFactory.types
registers, in registration order: SourceIdentifier (key "base"),
FolderIdentifier ("folder"), StudyInstanceUIDIdentifier
("study_instance_uid"), AccessionNumberIdentifier ("accession_number"),
FileSelectionIdentifier ("fileselection"). The abstract middle classes
PathIdentifier and PACSResourceIdentifier are not in the factory list. -/
inductive IdKind where
  | base
  | folder
  | studyInstanceUid
  | accessionNumber
  | fileselection
deriving DecidableEq, Repr

/-- The class-level key string of each registered identifier class. -/
def IdKind.keyChars : IdKind → Str
  | .base => ("base").data
  | .folder => ("folder").data
  | .studyInstanceUid => ("study_instance_uid").data
  | .accessionNumber => ("accession_number").data
  | .fileselection => ("fileselection").data

/-- SourceIdentifierFactory.types, in the registration order of the source. -/
def factoryTypes : List IdKind :=
  [.base, .folder, .studyInstanceUid, .accessionNumber, .fileselection]

/-- An instance of SourceIdentifier or a subtype: the class together with
the instance-level identifier string (the text after the first colon). -/
structure SourceId where
  kind : IdKind
  identifier : Str
deriving DecidableEq, Repr

/-- UnknownSourceIdentifierException, with the data its message is built
from: either the split failed (no colon in the key) or the prefix before
the first colon matched no registered key (the message then lists the
known keys). -/
inductive UnknownSourceIdentifierError where
  | noColon (key : Str)
  | unknownKind (key : Str) (known : List Str)
deriving DecidableEq, Repr

/-- SourceIdentifierFactory.get_source_identifier_for_key: split the input
at the first colon into (type_key, identifier); raise when there is no
colon; otherwise return an instance of the first registered class whose
key equals type_key, raising when none matches. -/
def getSourceIdentifierForKey (key : Str) : Except UnknownSourceIdentifierError SourceId :=
  match splitFirst ':' key with
  | none => .error (.noColon key)
  | some (typeKey, identifier) =>
    match factoryTypes.find? (fun t => t.keyChars == typeKey) with
    | some t => .ok ⟨t, identifier⟩
    | none => .error (.unknownKind key (factoryTypes.map IdKind.keyChars))

/-- The prefix of the input before its first colon, when a colon exists. -/
def prefixBeforeColon (key : Str) : Option Str :=
  (splitFirst ':' key).map Prod.fst

/-- True exactly when the Except value is an error (a raised exception). -/
def isErr {ε α : Type} : Except ε α → Bool
  | .error _ => true
  | .ok _ => false

/-! ## Model of pathlib.PureWindowsPath

Parameter values of the path-valued parameter classes are PureWindowsPath
objects. The model below follows the parsing of the CPython
_WindowsFlavour/ntpath behaviour for drive-letter paths: replace '/' by
the separator, recognise a leading drive-letter-plus-colon pair as the
drive, a following separator as the root, split the remainder on the
separator and drop empty and single-dot components. Extended/UNC prefixes
are outside the model. Rendering joins drive, root and components with
backslashes; the empty path renders as a single dot. Python compares
PurePath values by their casefolded component lists. -/

/-- Split a character list on the backslash separator (Python str.split). -/
def splitOnSep : Str → List Str
  | [] => [[]]
  | c :: rest =>
    match splitOnSep rest with
    | [] => [[]]
    | s :: ss => if c = '\\' then [] :: s :: ss else (c :: s) :: ss

/-- Python's "\\".join on a list of components. -/
def joinSep : List Str → Str
  | [] => []
  | [p] => p
  | p :: q :: rest => p ++ '\\' :: joinSep (q :: rest)

/-- Is this character a Windows drive letter (a-z or A-Z)? -/
def isDriveLetter (c : Char) : Bool :=
  (('a' ≤ c) && (c ≤ 'z')) || (('A' ≤ c) && (c ≤ 'Z'))

/-- Replace the alternative separator by the primary one, as pathlib does
before splitting. -/
def toSep (c : Char) : Char := if c = '/' then '\\' else c

/-- A parsed PureWindowsPath: optional drive (empty or a letter plus
colon), whether the path is rooted, and the remaining components. -/
structure WinPath where
  drive : Str
  rooted : Bool
  parts : List Str
deriving DecidableEq, Repr

/-- Split off the drive: a leading letter followed by a colon. -/
def pwSplitDrive (s : Str) : Str × Str :=
  match s with
  | c :: c2 :: rest => if (c2 == ':') && isDriveLetter c then ([c, ':'], rest) else ([], c :: c2 :: rest)
  | _ => ([], s)

/-- Keep a path component unless it is empty or a single dot. -/
def keepPart (p : Str) : Bool := !(p.isEmpty) && !(p == [('.')])

/-- PureWindowsPath construction from a string: normalise separators,
split off drive, detect root, split and drop empty and dot components. -/
def pwParse (raw : Str) : WinPath :=
  match pwSplitDrive (raw.map toSep) with
  | (drv, rest) => ⟨drv, rest.head? == some '\\', (splitOnSep rest).filter keepPart⟩

/-- str() of a PureWindowsPath: drive, then the root separator when
rooted, then the components joined by backslashes; the empty path renders
as a single dot. -/
def pwRender (p : WinPath) : Str :=
  if p.drive.isEmpty && !p.rooted && p.parts.isEmpty then [('.')]
  else p.drive ++ (cond p.rooted [('\\')] []) ++ joinSep p.parts

/-- Drive invariant of parsed paths: empty or one letter plus a colon. -/
def GoodDrive (d : Str) : Prop := d = [] ∨ ∃ c, isDriveLetter c = true ∧ d = [c, ':']

/-- Component invariant of parsed paths: nonempty, not a dot, and free of
both separators. -/
def GoodPart (p : Str) : Prop := p ≠ [] ∧ p ≠ [('.')] ∧ '\\' ∉ p ∧ '/' ∉ p

def GoodParts (ps : List Str) : Prop := ∀ p ∈ ps, GoodPart p

/-- The degenerate shape excluded from round-trips: a drive-less,
root-less path whose first component begins with a drive letter and a
colon, so that re-parsing its rendered text finds a drive that was not
there. -/
def firstPartDriveLike (ps : List Str) : Bool :=
  match ps with
  | (c :: c2 :: _) :: _ => (c2 == ':') && isDriveLetter c
  | _ => false

/-- A path whose rendered text parses back to the same structure: it has a
drive, or is rooted, or its first component does not look like a drive. -/
def goodShape (p : WinPath) : Bool :=
  !(p.drive.isEmpty) || p.rooted || !(firstPartDriveLike p.parts)

/-! ## Parameters (anonapi/parameters.py, Parameter hierarchy and factory) -/

/-- The registered concrete Parameter classes, identified by field_name:
source, patient_id, patient_name, description, pims_key,
destination_path, root_source_path, project. -/
inductive PVariant where
  | source
  | patientId
  | patientName
  | description
  | pimsKey
  | destinationPath
  | rootSourcePath
  | project
deriving DecidableEq, Repr

/-- The class-level field_name of each Parameter class. -/
def PVariant.fieldName : PVariant → Str
  | .source => ("source").data
  | .patientId => ("patient_id").data
  | .patientName => ("patient_name").data
  | .description => ("description").data
  | .pimsKey => ("pims_key").data
  | .destinationPath => ("destination_path").data
  | .rootSourcePath => ("root_source_path").data
  | .project => ("project").data

/-- ALL_PARAMETERS = COMMON_JOB_PARAMETERS + COMMON_GLOBAL_PARAMETERS, in
source order: [SourceIdentifierParameter, PatientID, PatientName,
Description, PIMSKey, DestinationPath, RootSourcePath, Project]. -/
def allParameters : List PVariant :=
  [.source, .patientId, .patientName, .description, .pimsKey, .destinationPath, .rootSourcePath, .project]

/-- A Parameter instance: the concrete class together with its typed
value. Plain-string classes hold an optional string, path classes an
optional PureWindowsPath, and SourceIdentifierParameter always holds a
parsed SourceIdentifier (its constructor rejects anything else). An
absent value models Python None (the constructor maps every falsy input
to None). -/
inductive PParam where
  | patientID (value : Option Str)
  | patientName (value : Option Str)
  | description (value : Option Str)
  | pimsKey (value : Option Str)
  | project (value : Option Str)
  | destinationPath (value : Option WinPath)
  | rootSourcePath (value : Option WinPath)
  | source (value : SourceId)
deriving DecidableEq, Repr

/-- The concrete class of a Parameter instance. -/
def PParam.variantOf : PParam → PVariant
  | .patientID _ => .patientId
  | .patientName _ => .patientName
  | .description _ => .description
  | .pimsKey _ => .pimsKey
  | .project _ => .project
  | .destinationPath _ => .destinationPath
  | .rootSourcePath _ => .rootSourcePath
  | .source _ => .source

/-- Parameter construction from a raw string value (Parameter.__init__ /
SourceIdentifierParameter.__init__): an empty (falsy) string becomes the
absent value; path classes parse the string as a PureWindowsPath; the
source class parses the string as a source identifier and raises
UnknownSourceIdentifierException on failure. -/
def mkParam (V : PVariant) (raw : Str) : Except UnknownSourceIdentifierError PParam :=
  match V with
  | .patientId => .ok (.patientID (if raw.isEmpty then none else some raw))
  | .patientName => .ok (.patientName (if raw.isEmpty then none else some raw))
  | .description => .ok (.description (if raw.isEmpty then none else some raw))
  | .pimsKey => .ok (.pimsKey (if raw.isEmpty then none else some raw))
  | .project => .ok (.project (if raw.isEmpty then none else some raw))
  | .destinationPath => .ok (.destinationPath (if raw.isEmpty then none else some (pwParse raw)))
  | .rootSourcePath => .ok (.rootSourcePath (if raw.isEmpty then none else some (pwParse raw)))
  | .source =>
    match getSourceIdentifierForKey raw with
    | .ok s => .ok (.source s)
    | .error e => .error e

/-- The value part of Parameter.__str__: empty for an absent value, the
str() of the typed value otherwise. -/
def renderParamValue : PParam → Str
  | .patientID v => v.getD []
  | .patientName v => v.getD []
  | .description v => v.getD []
  | .pimsKey v => v.getD []
  | .project v => v.getD []
  | .destinationPath v => match v with | none => [] | some w => pwRender w
  | .rootSourcePath v => match v with | none => [] | some w => pwRender w
  | .source s => s.kind.keyChars ++ ':' :: s.identifier

/-- Parameter.__str__: "field_name,value" with an empty value part for an
absent value. -/
def renderParam (p : PParam) : Str :=
  p.variantOf.fieldName ++ ',' :: renderParamValue p

/-- ParameterParsingError with the data its message is built from. -/
inductive ParameterParsingError where
  | noComma (line : Str)
  | unknownField (key : Str) (value : Str) (known : List Str)
  | sourceError (e : UnknownSourceIdentifierError)
deriving DecidableEq, Repr

/-- ParameterFactory.parse_from_key_value: scan ALL_PARAMETERS in order
for the class whose field_name equals the key and construct it with the
value, wrapping an UnknownSourceIdentifierException raised by the
construction into a ParameterParsingError; raise a ParameterParsingError
listing all known field names when no class matches. -/
def parseFromKeyValue (key value : Str) : Except ParameterParsingError PParam :=
  match allParameters.find? (fun v => v.fieldName == key) with
  | some V =>
    match mkParam V value with
    | .ok p => .ok p
    | .error e => .error (.sourceError e)
  | none => .error (.unknownField key value (allParameters.map PVariant.fieldName))

/-- ParameterFactory.parse_from_string: split at the first comma, raising
when there is none, then delegate to parse_from_key_value. -/
def parseFromString (line : Str) : Except ParameterParsingError PParam :=
  match splitFirst ',' line with
  | none => .error (.noComma line)
  | some (k, v) => parseFromKeyValue k v

/-- Contract for parse_from_key_value, written from the specification
text: the source field parses its value as an identifier, wrapping the
identifier error; any other known field constructs its parameter from
the value with empty meaning absent; an unknown field raises an error
listing all eight known field names. -/
def parseFromKeyValueContract (k v : Str) : Except ParameterParsingError PParam :=
  if k = ("source").data then
    match getSourceIdentifierForKey v with
    | .ok s => .ok (.source s)
    | .error e => .error (.sourceError e)
  else if k = ("patient_id").data then .ok (.patientID (if v.isEmpty then none else some v))
  else if k = ("patient_name").data then .ok (.patientName (if v.isEmpty then none else some v))
  else if k = ("description").data then .ok (.description (if v.isEmpty then none else some v))
  else if k = ("pims_key").data then .ok (.pimsKey (if v.isEmpty then none else some v))
  else if k = ("destination_path").data then .ok (.destinationPath (if v.isEmpty then none else some (pwParse v)))
  else if k = ("root_source_path").data then .ok (.rootSourcePath (if v.isEmpty then none else some (pwParse v)))
  else if k = ("project").data then .ok (.project (if v.isEmpty then none else some v))
  else .error (.unknownField k v
    [("source").data, ("patient_id").data, ("patient_name").data, ("description").data,
     ("pims_key").data, ("destination_path").data, ("root_source_path").data, ("project").data])

/-- Contract for parse_from_string, written from the specification text:
a line with no comma raises, otherwise the field before the first comma
and the value after it are handled by the field-value contract. -/
def parseFromStringContract (line : Str) : Except ParameterParsingError PParam :=
  match splitFirst ',' line with
  | none => .error (.noComma line)
  | some (k, v) => parseFromKeyValueContract k v

/-! ## Relativity and as_absolute of path-valued parameters -/

/-- PurePath.is_absolute for a Windows path: a drive and a root. -/
def pwIsAbsolute (w : WinPath) : Bool := !(w.drive.isEmpty) && w.rooted

/-- PathIdentifier.is_relative: not Path(identifier).is_absolute(), where
Path is the POSIX path of the host: absolute means a leading slash. -/
def pathIdentifierIsRelative (ident : Str) : Bool := !(ident.head? == some '/')

/-- The is_relative attribute of a source identifier class: only the
PathIdentifier subclasses (folder, fileselection) define it; for the
other classes attribute lookup fails (none). -/
def idIsRelativeAttr (s : SourceId) : Option Bool :=
  match s.kind with
  | .folder => some (pathIdentifierIsRelative s.identifier)
  | .fileselection => some (pathIdentifierIsRelative s.identifier)
  | .base => none
  | .studyInstanceUid => none
  | .accessionNumber => none

/-- SourceIdentifierParameter.is_relative: delegate to the identifier's
is_relative, and return False when that attribute does not exist
(the except AttributeError branch). -/
def sourceParamIsRelative (s : SourceId) : Bool :=
  (idIsRelativeAttr s).getD false

/-- Python casefolding of a component for path comparison. -/
def lowerStr (l : Str) : Str := l.map Char.toLower

/-- The parts tuple of a PureWindowsPath: the drive-plus-root string as
the first entry when either is present, then the components. -/
def pyAllParts (w : WinPath) : List Str :=
  (if w.drive.isEmpty && !w.rooted then [] else [w.drive ++ cond w.rooted [('\\')] []]) ++ w.parts

/-- Is the first list a prefix of the second? -/
def leadsList : List Str → List Str → Bool
  | [], _ => true
  | _ :: _, [] => false
  | a :: as, b :: bs => (a == b) && leadsList as bs

/-- PurePath.relative_to succeeds iff the casefolded parts of the base
are a prefix of the casefolded parts of the path (with the empty base
accepted only for fully relative paths). -/
def relativeToOk (self other : WinPath) : Bool :=
  match (pyAllParts other).map lowerStr with
  | [] => !(!(self.drive.isEmpty) || self.rooted)
  | ob => leadsList ob ((pyAllParts self).map lowerStr)

/-- PurePath joining (root_path / value): a value with a drive replaces
everything; a rooted value keeps only the base's drive; otherwise the
value's components are appended to the base. -/
def joinPaths (root rel : WinPath) : WinPath :=
  if !(rel.drive.isEmpty) then rel
  else if rel.rooted then ⟨root.drive, true, rel.parts⟩
  else ⟨root.drive, root.rooted, root.parts ++ rel.parts⟩

/-- ParameterException raised by as_absolute. -/
inductive ParameterError where
  | cannotMakeAbsolute (value : WinPath) (root : WinPath)
deriving DecidableEq, Repr

/-- The PathParameter classes. -/
inductive PathVariant where
  | destinationPath
  | rootSourcePath
deriving DecidableEq, Repr

/-- A path-valued parameter with a present value. -/
structure PathParam where
  variant : PathVariant
  value : WinPath
deriving DecidableEq, Repr

/-- PathParameter.as_absolute, exactly as the source has it: when the
value is absolute, validate it against the root path (raising
ParameterException when relative_to fails) and then fall off the end of
the function, returning Python None; when the value is relative, return
a new parameter of the same class with the root path joined in front. -/
def asAbsolute (p : PathParam) (rootPath : WinPath) : Except ParameterError (Option PathParam) :=
  if pwIsAbsolute p.value then
    if relativeToOk p.value rootPath then .ok none
    else .error (.cannotMakeAbsolute p.value rootPath)
  else .ok (some ⟨p.variant, joinPaths rootPath p.value⟩)

/-- PurePath equality (PurePath.__eq__): equality of the casefolded parts
tuples, which here means casefolded drive, root flag and components. -/
def pyPathEq (a b : WinPath) : Bool :=
  (lowerStr a.drive == lowerStr b.drive) && (a.rooted == b.rooted)
    && (a.parts.map lowerStr == b.parts.map lowerStr)

/-- Python == on parameter values: same class, and equal values (string
equality for plain strings, PurePath equality for paths, kind and
identifier equality for source identifiers). -/
def pyValueEq : PParam → PParam → Bool
  | .patientID a, .patientID b => a == b
  | .patientName a, .patientName b => a == b
  | .description a, .description b => a == b
  | .pimsKey a, .pimsKey b => a == b
  | .project a, .project b => a == b
  | .destinationPath a, .destinationPath b =>
    match a, b with
    | none, none => true
    | some x, some y => pyPathEq x y
    | _, _ => false
  | .rootSourcePath a, .rootSourcePath b =>
    match a, b with
    | none, none => true
    | some x, some y => pyPathEq x y
    | _, _ => false
  | .source a, .source b => a == b
  | _, _ => false

/-- The parameters whose stored value round-trips through text: every
parameter except a path-valued one whose path has the degenerate
drive-like first component. -/
def goodParam : PParam → Bool
  | .destinationPath (some w) => goodShape w
  | .rootSourcePath (some w) => goodShape w
  | _ => true

/-! ## ParameterSet (anonapi/parameters.py, ParameterSet) -/

/-- The Python classes of the Parameter hierarchy that can be queried
with isinstance: the concrete classes plus the bases Parameter and
PathParameter. -/
inductive PClass where
  | parameter
  | patientID
  | patientName
  | description
  | pimsKey
  | project
  | pathParameter
  | destinationPath
  | rootSourcePath
  | sourceIdentifierParameter
deriving DecidableEq, Repr

/-- type(x) for a parameter instance: its concrete class. -/
def PParam.classOf : PParam → PClass
  | .patientID _ => .patientID
  | .patientName _ => .patientName
  | .description _ => .description
  | .pimsKey _ => .pimsKey
  | .project _ => .project
  | .destinationPath _ => .destinationPath
  | .rootSourcePath _ => .rootSourcePath
  | .source _ => .sourceIdentifierParameter

/-- The method resolution chain of each class up to Parameter. -/
def PClass.ancestors : PClass → List PClass
  | .parameter => [.parameter]
  | .patientID => [.patientID, .parameter]
  | .patientName => [.patientName, .parameter]
  | .description => [.description, .parameter]
  | .pimsKey => [.pimsKey, .parameter]
  | .project => [.project, .parameter]
  | .pathParameter => [.pathParameter, .parameter]
  | .destinationPath => [.destinationPath, .pathParameter, .parameter]
  | .rootSourcePath => [.rootSourcePath, .pathParameter, .parameter]
  | .sourceIdentifierParameter => [.sourceIdentifierParameter, .pathParameter, .parameter]

/-- isinstance(p, C): C is the class of p or one of its bases. -/
def isInstanceOf (p : PParam) (C : PClass) : Bool :=
  p.classOf.ancestors.contains C

/-- One update of the type-keyed dict: replace the entry with this
parameter's class, or append a new entry (Python dict assignment). -/
def dictUpsert : List (PClass × PParam) → PParam → List (PClass × PParam)
  | [], x => [(x.classOf, x)]
  | kv :: rest, x =>
    if kv.1 == x.classOf then (kv.1, x) :: rest else kv :: dictUpsert rest x

/-- Insert a list of parameters into the type-keyed dict in order. -/
def buildDict (init : List (PClass × PParam)) (xs : List PParam) : List (PClass × PParam) :=
  xs.foldl dictUpsert init

/-- ParameterSet.__init__: a dict keyed by concrete class is filled with
the defaults and then updated with the explicit parameters; the retained
parameters are the dict's values in insertion order. -/
def parameterSet (parameters defaultParameters : List PParam) : List PParam :=
  (buildDict (buildDict [] defaultParameters) parameters).map Prod.snd

/-- ParameterSet.get_param_by_type: the first retained parameter that is
an instance of the queried class. -/
def getParamByType (C : PClass) (retained : List PParam) : Option PParam :=
  retained.find? (fun p => isInstanceOf p C)

/-- Lookup of the retained parameter of one exact concrete class. -/
def findByClass (c : PClass) (retained : List PParam) : Option PParam :=
  retained.find? (fun p => p.classOf == c)

/-- The last parameter of the given concrete class in a list (the one a
Python dict built from the list would retain). -/
def lastWith (c : PClass) : List PParam → Option PParam
  | [] => none
  | x :: xs =>
    match lastWith c xs with
    | some y => some y
    | none => if x.classOf == c then some x else none

/-- Option fallback: the first value when present, otherwise the second. -/
def oElse {α : Type} : Option α → Option α → Option α
  | some x, _ => some x
  | none, b => b

/-- The value stored under a class key in the dict. -/
def assocFind (c : PClass) (d : List (PClass × PParam)) : Option PParam :=
  (d.find? (fun kv => kv.1 == c)).map Prod.snd

/-! ## Job batches (anonapi/cli/create_commands.py) -/

/-- CreateCommandsContext.add_to_batch merging step:
sorted(list(set(existing) | set(created))). -/
def mergeJobIds (existing created : List ℕ) : List ℕ :=
  (existing.toFinset ∪ created.toFinset).sort (· ≤ ·)

/-- The sequential job-creation loop of from_mapping: create a job per
element in order, collecting created ids, and break at the first
JobCreationException. Returns the created ids and the attempted
elements. -/
def createLoop {R E : Type} (create : R → Except E ℕ) : List R → List ℕ × List R
  | [] => ([], [])
  | r :: rest =>
    match create r with
    | .ok jobId =>
      let t := createLoop create rest
      (jobId :: t.1, r :: t.2)
    | .error _ => ([], [r])

/-- After the loop, from_mapping records the created ids into the batch
only when at least one id was created; a fresh batch starts from an
empty id list. -/
def batchAfterRun (createdIds : List ℕ) : Option (List ℕ) :=
  if createdIds.isEmpty then none else some (mergeJobIds [] createdIds)

/-- The job id of a successful creation (0 is never consulted: it is
used only where success is known). -/
def okOr {E : Type} : Except E ℕ → ℕ
  | .ok n => n
  | .error _ => 0

/-- A concrete creation function for instantiating the loop: row 2
raises, every other row n creates job 10 * n. -/
def c8create (n : ℕ) : Except Unit ℕ :=
  if n == 2 then .error () else .ok (10 * n)

/-! ## Placeholder generators (anonapi/cli/map_commands.py, add_selection) -/

/-- string.ascii_uppercase + string.digits. -/
def uppercaseAndDigits : Str := ("ABCDEFGHIJKLMNOPQRSTUVWXYZ0123456789").data

/-- random.choices(population, k=k): k independent draws from the
population; the draws are modelled by an arbitrary index function. -/
def randomChoices (population : Str) (pick : ℕ → ℕ) (k : ℕ) : Str :=
  (List.range k).map (fun i => population.getD (pick i % population.length) ' ')

/-- add_selection's random_string(k): "".join(random.choices(uppercase +
digits, k=k)). -/
def randomString (pick : ℕ → ℕ) (k : ℕ) : Str :=
  randomChoices uppercaseAndDigits pick k

/-- The pseudo patient name value: f"autogenerated_{random_string(5)}". -/
def pseudoNameValue (pick : ℕ → ℕ) : Str :=
  ("autogenerated_").data ++ randomString pick 5

/-- str() of a map object: "<map object at 0x...>", the hexadecimal
address varying per object. -/
def mapObjectRepr (addr : Str) : Str :=
  ("<map object at 0x").data ++ addr ++ [('>')]

/-- add_selection's random_intstring(k): str(map(str,
random.choices(range(10), k=k))) — str applied to the map iterator
itself, so the result is the repr of the map object, for every outcome
of the random draws. -/
def randomIntstring (addr : Str) (_pick : ℕ → ℕ) (_k : ℕ) : Str :=
  mapObjectRepr addr

/-- The pseudo patient id value: f"auto_{random_intstring(8)}". -/
def pseudoIdValue (addr : Str) (pick : ℕ → ℕ) : Str :=
  ("auto_").data ++ randomIntstring addr pick 8

/-- The description value: "auto generated_" + today's date. -/
def descriptionValue (today : Str) : Str :=
  ("auto generated_").data ++ today

/-! ## Mapping serialization

Modelled from the spec: anonapi/mapper.py (Mapping, serialize,
deserialize and the dialect) is not part of the available sources, so
the aggregate and its line-oriented text format are modelled from the
specification: a dialect marker line, the free-text description block as
comment lines, one option line "field,value" per global option
(root_source_path, destination_path, project, pims_key, written even
when the value is empty), then per row one line-group of
"field,value" lines in fixed column order with the source cell rendered
as "source,kind:value"; parse failure at any line yields a
MappingLoadError naming the offending line, and no partial Mapping is
returned. -/

/-- The persisted text-formatting convention. -/
inductive MDialect where
  | unix
  | windows
deriving DecidableEq, Repr

/-- The dialect marker line. -/
def MDialect.markerLine : MDialect → Str
  | .unix => ("dialect,unix").data
  | .windows => ("dialect,windows").data

/-- The global options of a mapping, one optional value per option
field (a ParameterSet keyed by variant holds at most one of each). -/
structure MOptions where
  rootSourcePath : Option Str
  destinationPath : Option Str
  project : Option Str
  pimsKey : Option Str
deriving DecidableEq, Repr

/-- One row of a mapping: the job-level cells in fixed column order. -/
structure MRow where
  source : Option SourceId
  patientName : Option Str
  patientId : Option Str
  description : Option Str
deriving DecidableEq, Repr

/-- Modelled from the spec: the Mapping aggregate — dialect, free-text
description, global options and the ordered rows. -/
structure Mapping where
  dialect : MDialect
  descriptionLines : List Str
  options : MOptions
  rows : List MRow
deriving DecidableEq, Repr

/-- An option-style line "field,value", with an empty value part for an
absent value. -/
def optionLine (field : Str) (v : Option Str) : Str :=
  field ++ ',' :: (v.getD [])

/-- The rendered source cell "kind:value", empty when absent. -/
def sourceCell (s : Option SourceId) : Str :=
  match s with
  | none => []
  | some si => si.kind.keyChars ++ ':' :: si.identifier

/-- The line-group of one row, in fixed column order. -/
def rowLines (r : MRow) : List Str :=
  [("source").data ++ ',' :: sourceCell r.source,
   optionLine (("patient_name").data) r.patientName,
   optionLine (("patient_id").data) r.patientId,
   optionLine (("description").data) r.description]

/-- Modelled from the spec: Mapping.serialize as a list of lines. -/
def serializeMapping (m : Mapping) : List Str :=
  m.dialect.markerLine ::
    (m.descriptionLines.map (fun l => '#' :: l) ++
      [optionLine (("root_source_path").data) m.options.rootSourcePath,
       optionLine (("destination_path").data) m.options.destinationPath,
       optionLine (("project").data) m.options.project,
       optionLine (("pims_key").data) m.options.pimsKey] ++
      (m.rows.map rowLines).flatten)

/-- MappingLoadError, identifying the offending line when one exists. -/
inductive MappingLoadError where
  | badDialect (line : Option Str)
  | badOption (expectedField : Str) (line : Option Str)
  | badRowField (expectedField : Str) (line : Option Str)
  | badSource (e : UnknownSourceIdentifierError) (cell : Str)
deriving DecidableEq, Repr

/-- An empty cell denotes the absent value. -/
def parseValueOpt (v : Str) : Option Str :=
  if v.isEmpty then none else some v

/-- Parse one option-style line with a required field name. -/
def parseOptionLine (field : Str) (l : Str) : Except MappingLoadError (Option Str) :=
  match splitFirst ',' l with
  | some (k, v) => if k = field then .ok (parseValueOpt v) else .error (.badOption field (some l))
  | none => .error (.badOption field (some l))

/-- Parse a source cell: empty is absent, anything else must be a valid
source identifier. -/
def parseSourceCell (v : Str) : Except MappingLoadError (Option SourceId) :=
  if v.isEmpty then .ok none
  else
    match getSourceIdentifierForKey v with
    | .ok s => .ok (some s)
    | .error e => .error (.badSource e v)

/-- Parse the row line-groups: each group is a source line followed by
the remaining columns in fixed order; any malformed or truncated group
fails the whole load. -/
def parseRows : List Str → Except MappingLoadError (List MRow)
  | [] => .ok []
  | l1 :: l2 :: l3 :: l4 :: rest =>
    (match splitFirst ',' l1 with
     | some (k, v) =>
       if k = ("source").data then
         match parseSourceCell v with
         | .ok src =>
           match parseOptionLine (("patient_name").data) l2,
                 parseOptionLine (("patient_id").data) l3,
                 parseOptionLine (("description").data) l4 with
           | .ok pn, .ok pid, .ok desc =>
             match parseRows rest with
             | .ok rows => .ok (⟨src, pn, pid, desc⟩ :: rows)
             | .error e => .error e
           | .error e, _, _ => .error e
           | _, .error e, _ => .error e
           | _, _, .error e => .error e
         | .error e => .error e
       else .error (.badRowField (("source").data) (some l1))
     | none => .error (.badRowField (("source").data) (some l1)))
  | l :: _ => .error (.badRowField (("source").data) (some l))

/-- Collect the leading comment lines as the description block. -/
def parseDescriptionLines : List Str → List Str × List Str
  | [] => ([], [])
  | l :: rest =>
    match l with
    | '#' :: content =>
      let t := parseDescriptionLines rest
      (content :: t.1, t.2)
    | _ => ([], l :: rest)

/-- Parse the dialect marker line. -/
def parseDialectLine (l : Str) : Except MappingLoadError MDialect :=
  if l = MDialect.unix.markerLine then .ok .unix
  else if l = MDialect.windows.markerLine then .ok .windows
  else .error (.badDialect (some l))

/-- Modelled from the spec: Mapping.deserialize — parse the dialect
marker, the description block, the four option lines and the row groups;
any unrecognized line fails the whole load with a MappingLoadError. -/
def deserializeMapping (ls : List Str) : Except MappingLoadError Mapping :=
  match ls with
  | [] => .error (.badDialect none)
  | dl :: rest =>
    match parseDialectLine dl with
    | .error e => .error e
    | .ok dia =>
      match parseDescriptionLines rest with
      | (descLines, rest2) =>
        match rest2 with
        | o1 :: o2 :: o3 :: o4 :: rest3 =>
          match parseOptionLine (("root_source_path").data) o1,
                parseOptionLine (("destination_path").data) o2,
                parseOptionLine (("project").data) o3,
                parseOptionLine (("pims_key").data) o4 with
          | .ok rsp, .ok dp, .ok proj, .ok pk =>
            match parseRows rest3 with
            | .ok rows => .ok ⟨dia, descLines, ⟨rsp, dp, proj, pk⟩, rows⟩
            | .error e => .error e
          | .error e, _, _, _ => .error e
          | _, .error e, _, _ => .error e
          | _, _, .error e, _ => .error e
          | _, _, _, .error e => .error e
        | _ => .error (.badOption (("root_source_path").data) none)

/-- A present text cell is nonempty (the constructors map empty to
absent) and fits on one line. -/
def goodCell : Option Str → Bool
  | none => true
  | some s => !(s.isEmpty) && !(s.contains '\n')

/-- A present source cell fits on one line. -/
def goodSrc : Option SourceId → Bool
  | none => true
  | some si => !(si.identifier.contains '\n')

/-- A mapping built from valid parameters: cell values are absent or
nonempty, and all persisted text fits in lines. -/
def Mapping.wellformed (m : Mapping) : Bool :=
  m.descriptionLines.all (fun l => !(l.contains '\n')) &&
    goodCell m.options.rootSourcePath && goodCell m.options.destinationPath &&
    goodCell m.options.project && goodCell m.options.pimsKey &&
    m.rows.all (fun r => goodSrc r.source && goodCell r.patientName
      && goodCell r.patientId && goodCell r.description)

/-- Every dict entry stores a parameter under its own concrete class. -/
def pairsGood (d : List (PClass × PParam)) : Prop := ∀ kv ∈ d, kv.1 = kv.2.classOf

/-- The specification's reading of get_param_by_type: the first retained
parameter that is an instance of the queried class, absent when none
matches. -/
def firstInstanceSpec (C : PClass) : List PParam → Option PParam
  | [] => none
  | p :: rest => if isInstanceOf p C then some p else firstInstanceSpec C rest

/-- The concrete parameter for the round-trip witness. -/
def c4WitnessParam : PParam := PParam.destinationPath (some (pwParse (("data\\out").data)))

/-- The degenerate parameter refuting the claim as stated. -/
def c4BadParam : PParam := PParam.destinationPath (some (pwParse (("./c:.").data)))

/-- The concrete mapping for the round-trip witness. -/
def c2WitnessMapping : Mapping :=
  ⟨.unix,
   [("example mapping for one patient").data],
   ⟨some (("C:\\src").data), some (("\\\\server\\share\\folder").data),
    some (("Wetenschap-Algemeen").data), none⟩,
   [⟨some ⟨.folder, ("data\\pt1").data⟩, some (("autogenerated_ABC12").data),
     some (("1234").data), some (("first row").data)⟩,
    ⟨some ⟨.studyInstanceUid, ("1.2.3.4").data⟩, none, none, none⟩]⟩

/-! ## Proofs -/

theorem splitFirst_eq_none {sep : Char} : ∀ {l : Str}, splitFirst sep l = none ↔ sep ∉ l := by
  intro l
  induction l with
  | nil => simp [splitFirst]
  | cons c rest ih =>
    by_cases hc : c = sep
    · subst hc
      simp [splitFirst]
    · cases h : splitFirst sep rest with
      | none =>
        simp only [splitFirst, if_neg hc, h, List.mem_cons]
        constructor
        · intro _ habs
          rcases habs with h1 | h2
          · exact hc h1.symm
          · exact (ih.mp h) h2
        · intro _
          trivial
      | some ab =>
        obtain ⟨a, b⟩ := ab
        simp only [splitFirst, if_neg hc, h, List.mem_cons]
        constructor
        · intro habs
          cases habs
        · intro hnot
          exfalso
          apply hnot
          right
          by_contra hmem
          rw [ih.mpr hmem] at h
          simp at h

theorem splitFirst_append {sep : Char} {a b : Str} (h : sep ∉ a) :
    splitFirst sep (a ++ sep :: b) = some (a, b) := by
  induction a with
  | nil => simp [splitFirst]
  | cons c rest ih =>
    have hc : c ≠ sep := by intro hc; exact h (hc ▸ List.mem_cons_self c rest)
    have hrest : sep ∉ rest := fun hm => h (List.mem_cons_of_mem c hm)
    simp [splitFirst, hc, ih hrest]

theorem splitFirst_eq_some {sep : Char} : ∀ {l a b : Str},
    splitFirst sep l = some (a, b) → l = a ++ sep :: b ∧ sep ∉ a := by
  intro l
  induction l with
  | nil => intro a b h; simp [splitFirst] at h
  | cons c rest ih =>
    intro a b h
    by_cases hc : c = sep
    · subst hc
      simp [splitFirst] at h
      obtain ⟨ha, hb⟩ := h
      subst ha; subst hb
      simp
    · simp only [splitFirst, if_neg hc] at h
      cases hsp : splitFirst sep rest with
      | none => simp [hsp] at h
      | some ab =>
        obtain ⟨a0, b0⟩ := ab
        simp [hsp] at h
        obtain ⟨ha, hb⟩ := h
        subst ha; subst hb
        obtain ⟨hl, hna⟩ := ih hsp
        constructor
        · simp [hl]
        · simp [List.mem_cons, hna]
          intro hcontra
          exact hc hcontra.symm

theorem keyChars_no_colon (k : IdKind) : ':' ∉ k.keyChars := by
  cases k <;> decide

theorem keyChars_injective {k k' : IdKind} (h : k.keyChars = k'.keyChars) : k = k' := by
  cases k <;> cases k' <;> first | rfl | (exfalso; revert h; decide)

/-- Parsing "key:value" for a registered key returns exactly that kind and
the full remainder after the first colon, even when the value itself
contains colons. -/
theorem getSourceIdentifierForKey_ok (k : IdKind) (v : Str) :
    getSourceIdentifierForKey (k.keyChars ++ ':' :: v) = .ok ⟨k, v⟩ := by
  have hfind : factoryTypes.find? (fun t => t.keyChars == k.keyChars) = some k := by
    cases k <;> decide
  unfold getSourceIdentifierForKey
  simp [splitFirst_append (keyChars_no_colon k), hfind]

/-- Parsing fails exactly when the input has no colon, or the prefix before
the first colon is not the key of a registered identifier class. -/
theorem getSourceIdentifierForKey_error_iff (key : Str) :
    isErr (getSourceIdentifierForKey key) = true ↔
      (':' ∉ key ∨ ∀ k : IdKind, prefixBeforeColon key ≠ some k.keyChars) := by
  unfold getSourceIdentifierForKey prefixBeforeColon
  cases hsp : splitFirst ':' key with
  | none =>
    simp [isErr, splitFirst_eq_none.mp hsp]
  | some ab =>
    obtain ⟨a, b⟩ := ab
    have hmem : ':' ∈ key := by
      obtain ⟨hl, _⟩ := splitFirst_eq_some hsp
      subst hl
      simp
    cases hfind : factoryTypes.find? (fun t => t.keyChars == a) with
    | none =>
      simp only [hfind, Option.map_some, isErr]
      constructor
      · intro _
        right
        intro k hk
        have hk2 : a = k.keyChars := by simpa using hk
        have := List.find?_eq_none.mp hfind k (by cases k <;> simp [factoryTypes])
        simp [hk2] at this
      · intro _
        trivial
    | some t =>
      simp only [hfind, Option.map_some, isErr]
      constructor
      · intro habs
        cases habs
      · intro habs
        rcases habs with h1 | h2
        · exact absurd hmem h1
        · exfalso
          have hmemt := List.find?_some hfind
          have : t.keyChars = a := by simpa using hmemt
          exact h2 t (by simp [this])

theorem splitOnSep_ne_nil (l : Str) : splitOnSep l ≠ [] := by
  cases l with
  | nil => simp [splitOnSep]
  | cons c rest =>
    simp only [splitOnSep]
    cases splitOnSep rest with
    | nil => simp
    | cons s ss =>
      by_cases hc : c = '\\' <;> simp [hc]

theorem splitOnSep_sep (l : Str) : splitOnSep ('\\' :: l) = [] :: splitOnSep l := by
  simp only [splitOnSep]
  cases h : splitOnSep l with
  | nil => exact absurd h (splitOnSep_ne_nil l)
  | cons s ss => simp

theorem splitOnSep_append {a : Str} (l : Str) (ha : '\\' ∉ a) {s : Str} {ss : List Str}
    (hl : splitOnSep l = s :: ss) : splitOnSep (a ++ l) = (a ++ s) :: ss := by
  induction a with
  | nil => simpa using hl
  | cons c a ih =>
    have hc : c ≠ '\\' := fun hc => ha (hc ▸ List.mem_cons_self c a)
    have ha2 : '\\' ∉ a := fun hm => ha (List.mem_cons_of_mem c hm)
    simp [splitOnSep, hc, ih ha2]

theorem joinSep_cons (p : Str) (ps : List Str) :
    joinSep (p :: ps) = p ++ (match ps with | [] => ([] : Str) | q :: rest => '\\' :: joinSep (q :: rest)) := by
  cases ps <;> simp [joinSep]

theorem splitOnSep_joinSep : ∀ (ps : List Str), ps ≠ [] → (∀ p ∈ ps, '\\' ∉ p) →
    splitOnSep (joinSep ps) = ps := by
  intro ps
  induction ps with
  | nil => intro h; exact absurd rfl h
  | cons p rest ih =>
    intro _ hmem
    have hp : '\\' ∉ p := hmem p (List.mem_cons_self p rest)
    cases rest with
    | nil =>
      have : splitOnSep ([] : Str) = [] :: [] := by simp [splitOnSep]
      have h2 := splitOnSep_append ([] : Str) hp this
      simpa [joinSep] using h2
    | cons q rest2 =>
      have hrest : ∀ x ∈ q :: rest2, '\\' ∉ x := fun x hx => hmem x (List.mem_cons_of_mem p hx)
      have hjoin := ih (by simp) hrest
      have hsep : splitOnSep ('\\' :: joinSep (q :: rest2)) = [] :: (q :: rest2) := by
        rw [splitOnSep_sep, hjoin]
      have h2 := splitOnSep_append ('\\' :: joinSep (q :: rest2)) hp hsep
      simpa [joinSep] using h2

theorem splitOnSep_no_sep : ∀ (l : Str), ∀ seg ∈ splitOnSep l, '\\' ∉ seg := by
  intro l
  induction l with
  | nil => intro seg hseg; simp [splitOnSep] at hseg; simp [hseg]
  | cons c rest ih =>
    intro seg hseg
    simp only [splitOnSep] at hseg
    cases h : splitOnSep rest with
    | nil => exact absurd h (splitOnSep_ne_nil rest)
    | cons s ss =>
      rw [h] at hseg
      by_cases hc : c = '\\'
      · simp [hc] at hseg
        rcases hseg with h1 | h2 | h3
        · simp [h1]
        · subst h2
          exact ih seg (by simp [h])
        · exact ih seg (by simp [h]; right; exact h3)
      · simp [hc] at hseg
        rcases hseg with h1 | h2
        · subst h1
          intro hmem
          rcases List.mem_cons.mp hmem with h3 | h4
          · exact hc h3.symm
          · exact ih s (by simp [h]) h4
        · exact ih seg (by simp [h]; right; exact h2)

theorem splitOnSep_no_char {c : Char} : ∀ (l : Str), c ∉ l → ∀ seg ∈ splitOnSep l, c ∉ seg := by
  intro l
  induction l with
  | nil => intro _ seg hseg; simp [splitOnSep] at hseg; simp [hseg]
  | cons d rest ih =>
    intro hc seg hseg
    have hd : c ≠ d := fun h => hc (h ▸ List.mem_cons_self d rest)
    have hrest : c ∉ rest := fun hm => hc (List.mem_cons_of_mem d hm)
    simp only [splitOnSep] at hseg
    cases h : splitOnSep rest with
    | nil => exact absurd h (splitOnSep_ne_nil rest)
    | cons s ss =>
      rw [h] at hseg
      by_cases hsep : d = '\\'
      · simp [hsep] at hseg
        rcases hseg with h1 | h2 | h3
        · simp [h1]
        · subst h2
          exact ih hrest seg (by simp [h])
        · exact ih hrest seg (by simp [h]; right; exact h3)
      · simp [hsep] at hseg
        rcases hseg with h1 | h2
        · subst h1
          intro hmem
          rcases List.mem_cons.mp hmem with h3 | h4
          · exact hd h3
          · exact ih hrest s (by simp [h]) h4
        · exact ih hrest seg (by simp [h]; right; exact h2)

theorem mem_joinSep {c : Char} : ∀ (ps : List Str), (∀ p ∈ ps, c ∉ p) → c ≠ '\\' → c ∉ joinSep ps := by
  intro ps
  induction ps with
  | nil => intro _ _; simp [joinSep]
  | cons p rest ih =>
    intro hmem hc
    rw [joinSep_cons]
    intro habs
    rcases List.mem_append.mp habs with h1 | h2
    · exact hmem p (List.mem_cons_self p rest) h1
    · cases rest with
      | nil => simp at h2
      | cons q rest2 =>
        simp only [List.mem_cons] at h2
        rcases h2 with h3 | h4
        · exact hc h3
        · exact ih (fun x hx => hmem x (List.mem_cons_of_mem p hx)) hc h4

theorem toSep_ne_slash (c : Char) : toSep c ≠ '/' := by
  unfold toSep
  by_cases h : c = '/' <;> simp [h]

theorem map_toSep_no_slash (l : Str) : '/' ∉ l.map toSep := by
  intro h
  obtain ⟨c, _, hc⟩ := List.mem_map.mp h
  exact toSep_ne_slash c hc

theorem map_toSep_id {l : Str} (h : '/' ∉ l) : l.map toSep = l := by
  induction l with
  | nil => rfl
  | cons c rest ih =>
    have hc : c ≠ '/' := fun hc => h (hc ▸ List.mem_cons_self c rest)
    have hrest : '/' ∉ rest := fun hm => h (List.mem_cons_of_mem c hm)
    simp [toSep, hc, ih hrest]

theorem pwSplitDrive_cases (s : Str) :
    pwSplitDrive s = ([], s) ∨
      ∃ c rest, s = c :: ':' :: rest ∧ isDriveLetter c = true ∧ pwSplitDrive s = ([c, ':'], rest) := by
  match s with
  | [] => left; rfl
  | [c] => left; rfl
  | c :: c2 :: rest =>
    by_cases h : (c2 == ':') && isDriveLetter c
    · right
      have h2 : c2 = ':' := by
        have := (Bool.and_eq_true _ _).mp h
        exact eq_of_beq this.1
      have h3 : isDriveLetter c = true := ((Bool.and_eq_true _ _).mp h).2
      exact ⟨c, rest, by rw [h2], h3, by simp [pwSplitDrive, h]⟩
    · left
      simp [pwSplitDrive, h]

theorem pwSplitDrive_suffix_no_slash {s : Str} (h : '/' ∉ s) :
    '/' ∉ (pwSplitDrive s).2 := by
  rcases pwSplitDrive_cases s with hc | ⟨c, rest, hs, _, hc⟩
  · rw [hc]; exact h
  · rw [hc]
    intro hm
    exact h (by rw [hs]; exact List.mem_cons_of_mem _ (List.mem_cons_of_mem _ hm))

/-- Every parsed path satisfies the structural invariants. -/
theorem pwParse_good (raw : Str) : GoodDrive (pwParse raw).drive ∧ GoodParts (pwParse raw).parts := by
  unfold pwParse
  have hnos : '/' ∉ raw.map toSep := map_toSep_no_slash raw
  rcases pwSplitDrive_cases (raw.map toSep) with hc | ⟨c, rest, hs, hdl, hc⟩
  · rw [hc]
    constructor
    · left; rfl
    · intro p hp
      have hmem := List.mem_filter.mp hp
      have hkeep := hmem.2
      have hsep := splitOnSep_no_sep (raw.map toSep) p hmem.1
      have hslash := splitOnSep_no_char (raw.map toSep) hnos p hmem.1
      unfold keepPart at hkeep
      refine ⟨?_, ?_, hsep, hslash⟩
      · intro he
        subst he
        simp at hkeep
      · intro he
        subst he
        simp at hkeep
  · rw [hc]
    have hrest : '/' ∉ rest := by
      intro hm
      exact hnos (by rw [hs]; exact List.mem_cons_of_mem _ (List.mem_cons_of_mem _ hm))
    constructor
    · right; exact ⟨c, hdl, rfl⟩
    · intro p hp
      have hmem := List.mem_filter.mp hp
      have hkeep := hmem.2
      have hsep := splitOnSep_no_sep rest p hmem.1
      have hslash := splitOnSep_no_char rest hrest p hmem.1
      unfold keepPart at hkeep
      refine ⟨?_, ?_, hsep, hslash⟩
      · intro he
        subst he
        simp at hkeep
      · intro he
        subst he
        simp at hkeep

theorem goodParts_filter {ps : List Str} (h : GoodParts ps) : ps.filter keepPart = ps := by
  apply List.filter_eq_self.mpr
  intro p hp
  obtain ⟨h1, h2, _, _⟩ := h p hp
  unfold keepPart
  simp [h1, h2]

theorem goodParts_no_sep {ps : List Str} (h : GoodParts ps) : ∀ p ∈ ps, '\\' ∉ p :=
  fun p hp => (h p hp).2.2.1

theorem joinSep_no_slash {ps : List Str} (h : GoodParts ps) : '/' ∉ joinSep ps := by
  apply mem_joinSep
  · exact fun p hp => (h p hp).2.2.2
  · decide

/-- Splitting the root plus joined components of a rendered rooted path
recovers exactly the components, and the leading separator witnesses
rootedness. -/
theorem splitTail_rooted (ps : List Str) (h : GoodParts ps) :
    ((splitOnSep (('\\') :: joinSep ps)).filter keepPart = ps) ∧
      (((('\\') :: joinSep ps).head? == some '\\') = true) := by
  constructor
  · cases ps with
    | nil =>
      simp [joinSep, splitOnSep, keepPart]
    | cons p rest =>
      rw [splitOnSep_sep, splitOnSep_joinSep (p :: rest) (by simp) (goodParts_no_sep h)]
      rw [show ([] : Str) :: p :: rest = [([] : Str)] ++ p :: rest from rfl]
      rw [List.filter_append]
      simp only [goodParts_filter h]
      simp [keepPart]
  · simp

/-- Splitting the joined components of a rendered unrooted path recovers
exactly the components, and the head is never a separator. -/
theorem splitTail_unrooted (ps : List Str) (h : GoodParts ps) :
    ((splitOnSep (joinSep ps)).filter keepPart = ps) ∧
      (((joinSep ps).head? == some '\\') = false) := by
  cases ps with
  | nil =>
    constructor
    · simp [joinSep, splitOnSep, keepPart]
    · simp [joinSep]
  | cons p rest =>
    have hgp := h p (List.mem_cons_self p rest)
    constructor
    · rw [splitOnSep_joinSep (p :: rest) (by simp) (goodParts_no_sep h)]
      exact goodParts_filter h
    · rw [joinSep_cons]
      cases p with
      | nil => exact absurd rfl hgp.1
      | cons c0 p0 =>
        have hc0 : c0 ≠ '\\' := fun he => hgp.2.2.1 (he ▸ List.mem_cons_self c0 p0)
        simp [hc0]

theorem pwSplitDrive_drive (c : Char) (hc : isDriveLetter c = true) (ts : Str) :
    pwSplitDrive (c :: ':' :: ts) = ([c, ':'], ts) := by
  simp [pwSplitDrive, hc]

theorem pwSplitDrive_rooted (ts : Str) : pwSplitDrive ('\\' :: ts) = ([], '\\' :: ts) := by
  cases ts with
  | nil => rfl
  | cons c2 r =>
    have : isDriveLetter '\\' = false := by decide
    simp [pwSplitDrive, this]

theorem pwSplitDrive_unrooted (parts : List Str) (hp : GoodParts parts)
    (hnd : firstPartDriveLike parts = false) :
    pwSplitDrive (joinSep parts) = ([], joinSep parts) := by
  cases parts with
  | nil => rfl
  | cons p0 rest =>
    have hgp := hp p0 (List.mem_cons_self p0 rest)
    cases p0 with
    | nil => exact absurd rfl hgp.1
    | cons c0 p0t =>
      cases p0t with
      | nil =>
        rw [joinSep_cons]
        cases rest with
        | nil => rfl
        | cons q rest2 =>
          have : isDriveLetter '\\' = false := by decide
          simp [pwSplitDrive]
      | cons c1 p0tt =>
        rw [joinSep_cons]
        have hnd2 : ((c1 == ':') && isDriveLetter c0) = false := by
          simpa [firstPartDriveLike] using hnd
        cases rest with
        | nil => simp [joinSep, pwSplitDrive, hnd2]
        | cons q rest2 => simp [pwSplitDrive, hnd2]

theorem drive_no_slash {c : Char} (hc : isDriveLetter c = true) : '/' ∉ ([c, ':'] : Str) := by
  intro hmem
  rcases List.mem_cons.mp hmem with h1 | h2
  · rw [← h1] at hc
    revert hc
    decide
  · revert h2
    decide

/-- Re-parsing the rendered text of a well-shaped parsed path gives back
exactly the same structure. This is the Python invariant
PureWindowsPath(str(p)).parts == p.parts, which holds except for the
degenerate drive-less shapes excluded by goodShape. -/
theorem pwParse_pwRender (p : WinPath) (hd : GoodDrive p.drive) (hp : GoodParts p.parts)
    (hs : goodShape p = true) : pwParse (pwRender p) = p := by
  rcases p with ⟨drv, rooted, parts⟩
  simp only [goodShape] at hs
  simp only [GoodDrive] at hd
  simp only [GoodParts] at hp
  unfold pwRender
  by_cases he : (drv.isEmpty && !rooted && List.isEmpty parts) = true
  · have h1 : drv = [] := List.isEmpty_iff.mp (by simpa using ((Bool.and_eq_true _ _).mp ((Bool.and_eq_true _ _).mp he).1).1)
    have h2 : rooted = false := by
      have := ((Bool.and_eq_true _ _).mp ((Bool.and_eq_true _ _).mp he).1).2
      simpa using this
    have h3 : parts = [] := List.isEmpty_iff.mp ((Bool.and_eq_true _ _).mp he).2
    subst h1; subst h2; subst h3
    rw [if_pos (by simp)]
    decide
  · rw [if_neg he]
    rcases hd with hdrv | ⟨c, hcl, hdrv⟩
    · subst hdrv
      cases rooted with
      | false =>
        have hnd : firstPartDriveLike parts = false := by simpa using hs
        have hns : '/' ∉ joinSep parts := joinSep_no_slash hp
        have hsplit := splitTail_unrooted parts hp
        suffices hgoal : pwParse (joinSep parts) = ⟨[], false, parts⟩ by exact hgoal
        unfold pwParse
        rw [map_toSep_id hns, pwSplitDrive_unrooted parts hp hnd]
        simp only [WinPath.mk.injEq]
        exact ⟨trivial, hsplit.2, hsplit.1⟩
      | true =>
        have hns : '/' ∉ ('\\' :: joinSep parts : Str) := by
          intro hmem
          rcases List.mem_cons.mp hmem with h1 | h2
          · exact absurd h1 (by decide)
          · exact joinSep_no_slash hp h2
        have hsplit := splitTail_rooted parts hp
        suffices hgoal : pwParse ('\\' :: joinSep parts) = ⟨[], true, parts⟩ by exact hgoal
        unfold pwParse
        rw [map_toSep_id hns, pwSplitDrive_rooted (joinSep parts)]
        simp only [WinPath.mk.injEq]
        exact ⟨trivial, hsplit.2, hsplit.1⟩
    · subst hdrv
      cases rooted with
      | false =>
        have hns : '/' ∉ joinSep parts := joinSep_no_slash hp
        have hns2 : '/' ∉ (c :: ':' :: joinSep parts : Str) := by
          intro hmem
          rcases List.mem_cons.mp hmem with h1 | h2
          · exact drive_no_slash hcl (h1 ▸ List.mem_cons_self c [':'])
          · rcases List.mem_cons.mp h2 with h3 | h4
            · exact absurd h3 (by decide)
            · exact hns h4
        have hsplit := splitTail_unrooted parts hp
        suffices hgoal : pwParse (c :: ':' :: joinSep parts) = ⟨[c, ':'], false, parts⟩ by exact hgoal
        unfold pwParse
        rw [map_toSep_id hns2, pwSplitDrive_drive c hcl (joinSep parts)]
        simp only [WinPath.mk.injEq]
        exact ⟨trivial, hsplit.2, hsplit.1⟩
      | true =>
        have hns : '/' ∉ ('\\' :: joinSep parts : Str) := by
          intro hmem
          rcases List.mem_cons.mp hmem with h1 | h2
          · exact absurd h1 (by decide)
          · exact joinSep_no_slash hp h2
        have hns2 : '/' ∉ (c :: ':' :: '\\' :: joinSep parts : Str) := by
          intro hmem
          rcases List.mem_cons.mp hmem with h1 | h2
          · exact drive_no_slash hcl (h1 ▸ List.mem_cons_self c [':'])
          · rcases List.mem_cons.mp h2 with h3 | h4
            · exact absurd h3 (by decide)
            · exact hns h4
        have hsplit := splitTail_rooted parts hp
        suffices hgoal : pwParse (c :: ':' :: '\\' :: joinSep parts) = ⟨[c, ':'], true, parts⟩ by exact hgoal
        unfold pwParse
        rw [map_toSep_id hns2, pwSplitDrive_drive c hcl ('\\' :: joinSep parts)]
        simp only [WinPath.mk.injEq]
        exact ⟨trivial, hsplit.2, hsplit.1⟩

/-! ## Claim theorems -/

/-- Claim C1 (amended: the registered kinds are base, folder,
study_instance_uid, accession_number and fileselection; pacs_resource is
not registered). Identifier parsing splits the input at the first colon
only: for every registered kind k and every value string v, parsing
"k:v" returns the identifier of kind k with value exactly v, and parsing
raises UnknownSourceIdentifierException if and only if the input
contains no colon or its prefix before the first colon is none of the
registered kinds. -/
theorem identifier_parsing_first_colon :
    (∀ (k : IdKind) (v : Str), getSourceIdentifierForKey (k.keyChars ++ ':' :: v) = .ok ⟨k, v⟩) ∧
    (∀ key : Str, isErr (getSourceIdentifierForKey key) = true ↔
      (':' ∉ key ∨ ∀ k : IdKind, prefixBeforeColon key ≠ some k.keyChars)) :=
  ⟨getSourceIdentifierForKey_ok, getSourceIdentifierForKey_error_iff⟩

/-- Claim C1, counterexample to the claim as stated: "pacs_resource" is
listed by the claim among the registered kinds, yet parsing
"pacs_resource:x" raises UnknownSourceIdentifierException instead of
returning a pacs_resource identifier with value "x", because
PACSResourceIdentifier is not in SourceIdentifierFactory.types. -/
theorem identifier_parsing_pacs_resource_rejected :
    getSourceIdentifierForKey (("pacs_resource:x").data) =
      .error (.unknownKind (("pacs_resource:x").data) (factoryTypes.map IdKind.keyChars)) := rfl

/-- Claim C10: for every source identifier whose class is not path-like
(the base kind or the PACS kinds study_instance_uid and
accession_number), the class has no is_relative attribute of its own,
and SourceIdentifierParameter.is_relative returns False without raising
(the AttributeError is caught and mapped to False). -/
theorem source_param_is_relative_nonpath :
    (∀ v : Str, idIsRelativeAttr ⟨.base, v⟩ = none ∧ sourceParamIsRelative ⟨.base, v⟩ = false) ∧
    (∀ v : Str, idIsRelativeAttr ⟨.studyInstanceUid, v⟩ = none ∧
      sourceParamIsRelative ⟨.studyInstanceUid, v⟩ = false) ∧
    (∀ v : Str, idIsRelativeAttr ⟨.accessionNumber, v⟩ = none ∧
      sourceParamIsRelative ⟨.accessionNumber, v⟩ = false) :=
  ⟨fun _ => ⟨rfl, rfl⟩, fun _ => ⟨rfl, rfl⟩, fun _ => ⟨rfl, rfl⟩⟩

/-- Claim C5, evaluation at the failing input: as_absolute on an
already-absolute value that does lie under the given root returns Python
None (the function falls off the end) instead of a parameter, while the
relative branch does return a joined parameter and the
inconsistent-absolute branch does raise ParameterException. -/
theorem as_absolute_valid_branch_returns_none :
    asAbsolute ⟨.destinationPath, pwParse (("C:\\data\\out").data)⟩ (pwParse (("C:\\data").data)) =
      .ok none ∧
    asAbsolute ⟨.destinationPath, pwParse (("data\\out").data)⟩ (pwParse (("C:\\data").data)) =
      .ok (some ⟨.destinationPath,
        joinPaths (pwParse (("C:\\data").data)) (pwParse (("data\\out").data))⟩) ∧
    isErr (asAbsolute ⟨.destinationPath, pwParse (("C:\\other").data)⟩
      (pwParse (("C:\\data").data))) = true :=
  ⟨rfl, rfl, by decide⟩

/-- Claim C7: merging created job ids into a batch yields the sorted,
deduplicated union of the two id sequences, and the merge is idempotent:
merge(merge(A, B), B) = merge(A, B). -/
theorem batch_merge_sorted_union :
    (∀ A B : List ℕ, mergeJobIds (mergeJobIds A B) B = mergeJobIds A B) ∧
    (∀ A B : List ℕ, (mergeJobIds A B).Sorted (· ≤ ·)) ∧
    (∀ A B : List ℕ, (mergeJobIds A B).Nodup) ∧
    (∀ (A B : List ℕ) (x : ℕ), x ∈ mergeJobIds A B ↔ (x ∈ A ∨ x ∈ B)) := by
  refine ⟨?_, ?_, ?_, ?_⟩
  · intro A B
    unfold mergeJobIds
    rw [Finset.sort_toFinset, Finset.union_assoc, Finset.union_self]
  · intro A B
    exact Finset.sort_sorted _ _
  · intro A B
    exact Finset.sort_nodup _ _
  · intro A B x
    simp [mergeJobIds, Finset.mem_sort]

/-- Claim C9, evaluation at the defect: for every outcome of the random
draws, random_string(5) is 5 characters from the uppercase-plus-digits
alphabet, but random_intstring(8) is str(map(...)) — the repr of a map
object — which is never an 8-digit decimal string. -/
theorem pseudo_id_generator_not_digits :
    ∀ (pick : ℕ → ℕ) (addr : Str),
      ((randomString pick 5).length = 5 ∧ ∀ c ∈ randomString pick 5, c ∈ uppercaseAndDigits) ∧
      randomIntstring addr pick 8 = ("<map object at 0x").data ++ addr ++ [('>')] ∧
      ¬((randomIntstring addr pick 8).length = 8 ∧
        ∀ c ∈ randomIntstring addr pick 8, c.isDigit = true) := by
  intro pick addr
  refine ⟨⟨?_, ?_⟩, rfl, ?_⟩
  · simp [randomString, randomChoices]
  · intro c hc
    simp only [randomString, randomChoices, List.mem_map, List.mem_range] at hc
    obtain ⟨i, _, hgd⟩ := hc
    have hlt : pick i % uppercaseAndDigits.length < uppercaseAndDigits.length :=
      Nat.mod_lt _ (by decide)
    rw [List.getD_eq_getElem uppercaseAndDigits ' ' hlt] at hgd
    rw [← hgd]
    exact List.getElem_mem hlt
  · intro habs
    have hlen := habs.1
    have h17 : (("<map object at 0x").data).length = 17 := by decide
    simp only [randomIntstring, mapObjectRepr, List.length_append, List.length_cons,
      List.length_nil, h17] at hlen
    omega

/-- Claim C6: parse_from_string raises ParameterParsingError exactly
when the line has no comma, or the field before the first comma matches
none of the eight registered field names (the error then listing all
known field names), or the field is source and the value fails
identifier parsing (the identifier error being wrapped); in every other
case it returns the matching parameter — stated as equality with the
contract definition written from the specification. -/
theorem parse_from_string_meets_contract (l : Str) :
    parseFromString l = parseFromStringContract l := by
  unfold parseFromString parseFromStringContract
  cases hsp : splitFirst ',' l with
  | none => rfl
  | some kv =>
    obtain ⟨k, v⟩ := kv
    show parseFromKeyValue k v = parseFromKeyValueContract k v
    unfold parseFromKeyValueContract
    by_cases h1 : k = ("source").data
    · subst h1
      unfold parseFromKeyValue
      rw [show allParameters.find? (fun x => x.fieldName == ("source").data) = some PVariant.source
        from by decide]
      rw [if_pos rfl]
      cases hs : getSourceIdentifierForKey v with
      | ok s => simp [mkParam, hs]
      | error e => simp [mkParam, hs]
    · by_cases h2 : k = ("patient_id").data
      · subst h2
        rfl
      · by_cases h3 : k = ("patient_name").data
        · subst h3
          rfl
        · by_cases h4 : k = ("description").data
          · subst h4
            rfl
          · by_cases h5 : k = ("pims_key").data
            · subst h5
              rfl
            · by_cases h6 : k = ("destination_path").data
              · subst h6
                rfl
              · by_cases h7 : k = ("root_source_path").data
                · subst h7
                  rfl
                · by_cases h8 : k = ("project").data
                  · subst h8
                    rfl
                  · have hnone : allParameters.find? (fun x => x.fieldName == k) = none := by
                      apply List.find?_eq_none.mpr
                      intro x _
                      cases x <;>
                        · simp only [PVariant.fieldName, beq_iff_eq]
                          intro hc
                          first
                          | exact h1 hc.symm
                          | exact h2 hc.symm
                          | exact h3 hc.symm
                          | exact h4 hc.symm
                          | exact h5 hc.symm
                          | exact h6 hc.symm
                          | exact h7 hc.symm
                          | exact h8 hc.symm
                    unfold parseFromKeyValue
                    rw [hnone]
                    rw [if_neg h1, if_neg h2, if_neg h3, if_neg h4, if_neg h5, if_neg h6,
                      if_neg h7, if_neg h8]
                    rfl

/-- The sequential creation loop stops at the first failing element: with
every element of the prefix succeeding and element r failing, the loop
returns exactly the prefix's job ids in row order and attempts exactly
the prefix plus r, never touching what follows. -/
theorem createLoop_stops_at_first_error {R E : Type} (create : R → Except E ℕ) (r : R)
    (post : List R) (h2 : isErr (create r) = true) :
    ∀ pre : List R, (∀ x ∈ pre, isErr (create x) = false) →
      createLoop create (pre ++ r :: post) = (pre.map (fun x => okOr (create x)), pre ++ [r]) := by
  intro pre
  induction pre with
  | nil =>
    intro _
    cases hc : create r with
    | ok n =>
      rw [hc] at h2
      simp [isErr] at h2
    | error e =>
      simp [createLoop, hc]
  | cons p rest ih =>
    intro h1
    have hp := h1 p (List.mem_cons_self p rest)
    cases hc : create p with
    | error e =>
      rw [hc] at hp
      simp [isErr] at hp
    | ok n =>
      have ihh := ih (fun x hx => h1 x (List.mem_cons_of_mem p hx))
      simp [createLoop, hc, ihh, okOr]

/-- Claim C8: when job creation for row r fails after a prefix of
successful rows, the created ids are exactly the prefix's ids in row
order, no later row is attempted, and when at least one id was created
the batch receives exactly those ids (sorted and deduplicated). -/
theorem partial_batch_determinism {R E : Type} (create : R → Except E ℕ) (pre : List R)
    (r : R) (post : List R) (h1 : ∀ x ∈ pre, isErr (create x) = false)
    (h2 : isErr (create r) = true) :
    createLoop create (pre ++ r :: post) = (pre.map (fun x => okOr (create x)), pre ++ [r]) ∧
    (pre = [] → batchAfterRun (pre.map (fun x => okOr (create x))) = none) ∧
    (pre ≠ [] → ∃ ids, batchAfterRun (pre.map (fun x => okOr (create x))) = some ids ∧
      ids.Sorted (· ≤ ·) ∧ ids.Nodup ∧
      ∀ x, (x ∈ ids ↔ x ∈ pre.map (fun y => okOr (create y)))) := by
  refine ⟨createLoop_stops_at_first_error create r post h2 pre h1, ?_, ?_⟩
  · intro hne
    subst hne
    rfl
  · intro hne
    refine ⟨mergeJobIds [] (pre.map fun x => okOr (create x)), ?_, Finset.sort_sorted _ _,
      Finset.sort_nodup _ _, ?_⟩
    · unfold batchAfterRun
      rw [if_neg ?_]
      intro habs
      exact hne (List.map_eq_nil_iff.mp (List.isEmpty_iff.mp habs))
    · intro x
      simp [mergeJobIds, Finset.mem_sort]

/-- Claim C8, witness: rows [1, 2, 3] where row 2 fails create exactly
one job (id 10, from row 1), the loop halts before row 3, and the batch
receives exactly that one id. -/
theorem partial_batch_determinism_witness :
    createLoop c8create ([1] ++ 2 :: [3]) = ([10], [1, 2]) ∧
    (∃ ids, batchAfterRun [10] = some ids ∧ ids.Sorted (· ≤ ·) ∧ ids.Nodup ∧
      ∀ x, (x ∈ ids ↔ x ∈ [10])) := by
  have h := partial_batch_determinism c8create [1] 2 [3] (by decide) (by decide)
  exact ⟨h.1.trans (by decide), h.2.2 (by decide)⟩

theorem dictUpsert_cons_eq (kv : PClass × PParam) (rest : List (PClass × PParam)) (x : PParam)
    (h : (kv.1 == x.classOf) = true) : dictUpsert (kv :: rest) x = (kv.1, x) :: rest := by
  show (if (kv.1 == x.classOf) = true then (kv.1, x) :: rest else kv :: dictUpsert rest x) = _
  rw [if_pos h]

theorem dictUpsert_cons_ne (kv : PClass × PParam) (rest : List (PClass × PParam)) (x : PParam)
    (h : ¬ (kv.1 == x.classOf) = true) : dictUpsert (kv :: rest) x = kv :: dictUpsert rest x := by
  show (if (kv.1 == x.classOf) = true then (kv.1, x) :: rest else kv :: dictUpsert rest x) = _
  rw [if_neg h]

theorem assocFind_dictUpsert (c : PClass) (x : PParam) :
    ∀ d : List (PClass × PParam),
      assocFind c (dictUpsert d x) = if c = x.classOf then some x else assocFind c d := by
  intro d
  induction d with
  | nil =>
    by_cases hc : c = x.classOf
    · have hb : (x.classOf == c) = true := by simp [hc]
      simp [dictUpsert, assocFind, List.find?, hb, hc]
    · have hb : (x.classOf == c) = false := by
        simp only [beq_eq_false_iff_ne, ne_eq]
        exact fun h => hc h.symm
      simp [dictUpsert, assocFind, List.find?, hb, hc]
  | cons kv rest ih =>
    by_cases hkv : (kv.1 == x.classOf) = true
    · rw [dictUpsert_cons_eq kv rest x hkv]
      have hk : kv.1 = x.classOf := by simpa using hkv
      by_cases hc : c = kv.1
      · have hb : (kv.1 == c) = true := by simp [hc]
        have hcx : c = x.classOf := hc.trans hk
        have hfind : List.find? (fun z => z.1 == c) ((kv.1, x) :: rest) = some (kv.1, x) := by
          simp [List.find?, hb]
        rw [if_pos hcx]
        unfold assocFind
        rw [hfind]
        rfl
      · have hb : (kv.1 == c) = false := by
          simp only [beq_eq_false_iff_ne, ne_eq]
          exact fun h => hc h.symm
        have hcx : ¬ c = x.classOf := fun h => hc (h.trans hk.symm)
        have lhs : assocFind c ((kv.1, x) :: rest) = assocFind c rest := by
          simp [assocFind, List.find?, hb]
        have rhs : assocFind c (kv :: rest) = assocFind c rest := by
          simp [assocFind, List.find?, hb]
        rw [lhs, if_neg hcx, rhs]
    · rw [dictUpsert_cons_ne kv rest x hkv]
      by_cases hc : c = kv.1
      · have hb : (kv.1 == c) = true := by simp [hc]
        have hk : kv.1 ≠ x.classOf := by simpa using hkv
        have hcx : ¬ c = x.classOf := fun h => hk (hc ▸ h)
        have lhs : assocFind c (kv :: dictUpsert rest x) = some kv.2 := by
          simp [assocFind, List.find?, hb]
        have rhs : assocFind c (kv :: rest) = some kv.2 := by
          simp [assocFind, List.find?, hb]
        rw [lhs, if_neg hcx, rhs]
      · have hb : (kv.1 == c) = false := by
          simp only [beq_eq_false_iff_ne, ne_eq]
          exact fun h => hc h.symm
        have lhs : assocFind c (kv :: dictUpsert rest x) = assocFind c (dictUpsert rest x) := by
          simp [assocFind, List.find?, hb]
        have rhs : assocFind c (kv :: rest) = assocFind c rest := by
          simp [assocFind, List.find?, hb]
        rw [lhs, rhs, ih]

theorem assocFind_buildDict (c : PClass) :
    ∀ (xs : List PParam) (init : List (PClass × PParam)),
      assocFind c (buildDict init xs) = oElse (lastWith c xs) (assocFind c init) := by
  intro xs
  induction xs with
  | nil =>
    intro init
    simp [buildDict, lastWith, oElse]
  | cons x rest ih =>
    intro init
    show assocFind c (buildDict (dictUpsert init x) rest) = _
    rw [ih (dictUpsert init x), assocFind_dictUpsert]
    cases hl : lastWith c rest with
    | some y =>
      simp [oElse, lastWith, hl]
    | none =>
      simp only [lastWith, hl, oElse]
      by_cases hc : c = x.classOf
      · have hb : (x.classOf == c) = true := by simp [hc]
        rw [if_pos hc, hb]
        simp [oElse]
      · have hb : (x.classOf == c) = false := by
          simp only [beq_eq_false_iff_ne, ne_eq]
          exact fun h => hc h.symm
        rw [if_neg hc, hb]
        simp [oElse]

theorem pairsGood_nil : pairsGood [] := by
  intro kv h
  cases h

theorem pairsGood_dictUpsert (x : PParam) :
    ∀ d : List (PClass × PParam), pairsGood d → pairsGood (dictUpsert d x) := by
  intro d
  induction d with
  | nil =>
    intro _ kv hkv
    simp [dictUpsert] at hkv
    simp [hkv]
  | cons kv0 rest ih =>
    intro h
    by_cases hkv : (kv0.1 == x.classOf) = true
    · rw [dictUpsert_cons_eq kv0 rest x hkv]
      intro kv hkv2
      rcases List.mem_cons.mp hkv2 with h1 | h2
      · rw [h1]
        simpa using hkv
      · exact h kv (List.mem_cons_of_mem kv0 h2)
    · rw [dictUpsert_cons_ne kv0 rest x hkv]
      intro kv hkv2
      rcases List.mem_cons.mp hkv2 with h1 | h2
      · rw [h1]
        exact h kv0 (List.mem_cons_self kv0 rest)
      · exact ih (fun z hz => h z (List.mem_cons_of_mem kv0 hz)) kv h2

theorem pairsGood_buildDict : ∀ (xs : List PParam) {init : List (PClass × PParam)},
    pairsGood init → pairsGood (buildDict init xs) := by
  intro xs
  induction xs with
  | nil => intro init h; exact h
  | cons x rest ih =>
    intro init h
    exact ih (pairsGood_dictUpsert x init h)

theorem findByClass_map_snd (c : PClass) :
    ∀ (d : List (PClass × PParam)), pairsGood d → findByClass c (d.map Prod.snd) = assocFind c d := by
  intro d
  induction d with
  | nil => intro _; rfl
  | cons kv rest ih =>
    intro h
    have hkv := h kv (List.mem_cons_self kv rest)
    by_cases hc : (kv.1 == c) = true
    · have hc2 : (kv.2.classOf == c) = true := by rw [← hkv]; exact hc
      simp [findByClass, assocFind, List.find?, hc, hc2]
    · have hc2 : (kv.2.classOf == c) = false := by
        rw [← hkv]
        simpa using hc
      have hc3 : (kv.1 == c) = false := by simpa using hc
      simp only [List.map_cons, findByClass, List.find?, hc2, assocFind, hc3]
      exact ih (fun z hz => h z (List.mem_cons_of_mem kv hz))

theorem keys_dictUpsert_subset (x : PParam) (c' : PClass) :
    ∀ d : List (PClass × PParam),
      c' ∈ (dictUpsert d x).map Prod.fst → c' ∈ d.map Prod.fst ∨ c' = x.classOf := by
  intro d
  induction d with
  | nil =>
    intro h
    right
    simpa [dictUpsert] using h
  | cons kv rest ih =>
    by_cases hkv : (kv.1 == x.classOf) = true
    · intro h
      left
      have heq : (dictUpsert (kv :: rest) x).map Prod.fst = kv.1 :: rest.map Prod.fst := by
        rw [dictUpsert_cons_eq kv rest x hkv]
        rfl
      rw [heq] at h
      simpa using h
    · intro h
      have heq : (dictUpsert (kv :: rest) x).map Prod.fst = kv.1 :: (dictUpsert rest x).map Prod.fst := by
        rw [dictUpsert_cons_ne kv rest x hkv]
        rfl
      rw [heq] at h
      rcases List.mem_cons.mp h with h1 | h2
      · left
        rw [List.map_cons]
        exact List.mem_cons.mpr (Or.inl h1)
      · rcases ih h2 with h3 | h4
        · left
          rw [List.map_cons]
          exact List.mem_cons.mpr (Or.inr h3)
        · right
          exact h4

theorem nodupKeys_dictUpsert (x : PParam) :
    ∀ d : List (PClass × PParam),
      (d.map Prod.fst).Nodup → ((dictUpsert d x).map Prod.fst).Nodup := by
  intro d
  induction d with
  | nil =>
    intro _
    simp [dictUpsert]
  | cons kv rest ih =>
    intro h
    simp only [List.map_cons, List.nodup_cons] at h
    by_cases hkv : (kv.1 == x.classOf) = true
    · have heq : (dictUpsert (kv :: rest) x).map Prod.fst = kv.1 :: rest.map Prod.fst := by
        rw [dictUpsert_cons_eq kv rest x hkv]
        rfl
      rw [heq]
      exact List.nodup_cons.mpr ⟨h.1, h.2⟩
    · have heq : (dictUpsert (kv :: rest) x).map Prod.fst = kv.1 :: (dictUpsert rest x).map Prod.fst := by
        rw [dictUpsert_cons_ne kv rest x hkv]
        rfl
      rw [heq]
      refine List.nodup_cons.mpr ⟨?_, ih h.2⟩
      intro habs
      rcases keys_dictUpsert_subset x kv.1 rest habs with h1 | h2
      · exact h.1 h1
      · have hne : kv.1 ≠ x.classOf := by simpa using hkv
        exact hne h2

theorem nodupKeys_buildDict : ∀ (xs : List PParam) {init : List (PClass × PParam)},
    (init.map Prod.fst).Nodup → ((buildDict init xs).map Prod.fst).Nodup := by
  intro xs
  induction xs with
  | nil => intro init h; exact h
  | cons x rest ih =>
    intro init h
    exact ih (nodupKeys_dictUpsert x init h)

theorem nodupKeys_nil : ((([] : List (PClass × PParam))).map Prod.fst).Nodup := by
  simp

theorem map_classOf_eq_keys (d : List (PClass × PParam)) (h : pairsGood d) :
    (d.map Prod.snd).map PParam.classOf = d.map Prod.fst := by
  rw [List.map_map]
  apply List.map_congr_left
  intro kv hkv
  exact (h kv hkv).symm

/-- Claim C3: a ParameterSet retains at most one parameter per concrete
class; for every class the retained entry is the last explicit
parameter of that class when one exists and otherwise the last default
of that class (explicit parameters win, defaults are only a fallback);
the spec's example yields PatientID "42" and Project "X"; and
get_param_by_type returns the first retained parameter that is an
instance of the queried class (subclasses included), absent exactly
when no retained parameter matches. -/
theorem parameter_set_precedence :
    (∀ ps ds : List PParam, ((parameterSet ps ds).map PParam.classOf).Nodup) ∧
    (∀ (ps ds : List PParam) (c : PClass),
      findByClass c (parameterSet ps ds) = oElse (lastWith c ps) (lastWith c ds)) ∧
    (getParamByType .patientID
        (parameterSet [PParam.patientID (some (("42").data))]
          [PParam.patientID (some (("0").data)), PParam.project (some (("X").data))]) =
      some (PParam.patientID (some (("42").data))) ∧
     getParamByType .project
        (parameterSet [PParam.patientID (some (("42").data))]
          [PParam.patientID (some (("0").data)), PParam.project (some (("X").data))]) =
      some (PParam.project (some (("X").data)))) ∧
    (∀ (C : PClass) (l : List PParam), getParamByType C l = firstInstanceSpec C l) ∧
    (∀ (C : PClass) (l : List PParam),
      getParamByType C l = none ↔ ∀ p ∈ l, isInstanceOf p C = false) := by
  refine ⟨?_, ?_, ⟨by decide, by decide⟩, ?_, ?_⟩
  · intro ps ds
    unfold parameterSet
    rw [map_classOf_eq_keys _ (pairsGood_buildDict ps (pairsGood_buildDict ds pairsGood_nil))]
    exact nodupKeys_buildDict ps (nodupKeys_buildDict ds nodupKeys_nil)
  · intro ps ds c
    unfold parameterSet
    rw [findByClass_map_snd c _ (pairsGood_buildDict ps (pairsGood_buildDict ds pairsGood_nil))]
    rw [assocFind_buildDict, assocFind_buildDict]
    have hnil : assocFind c ([] : List (PClass × PParam)) = none := rfl
    rw [hnil]
    cases lastWith c ps <;> cases lastWith c ds <;> rfl
  · intro C l
    induction l with
    | nil => rfl
    | cons p rest ih =>
      by_cases hp : isInstanceOf p C = true
      · simp [getParamByType, firstInstanceSpec, List.find?, hp]
      · have hp2 : isInstanceOf p C = false := by simpa using hp
        simp only [getParamByType, firstInstanceSpec, List.find?, hp2]
        rw [if_neg Bool.false_ne_true]
        exact ih
  · intro C l
    constructor
    · intro h p hp
      have := List.find?_eq_none.mp h p hp
      simpa using this
    · intro h
      apply List.find?_eq_none.mpr
      intro p hp
      simp [h p hp]

theorem fieldName_no_comma (V : PVariant) : ',' ∉ V.fieldName := by
  cases V <;> decide

theorem pwRender_ne_nil (w : WinPath) (hp : GoodParts w.parts) : pwRender w ≠ [] := by
  rcases w with ⟨drv, rooted, parts⟩
  dsimp only at hp
  unfold pwRender
  dsimp only
  by_cases he : (drv.isEmpty && !rooted && List.isEmpty parts) = true
  · rw [if_pos he]
    simp
  · rw [if_neg he]
    intro habs
    rcases List.append_eq_nil.mp habs with ⟨hfront, hjoin⟩
    rcases List.append_eq_nil.mp hfront with ⟨hdrv, hcond⟩
    have hroot : rooted = false := by
      cases rooted with
      | false => rfl
      | true => simp [cond] at hcond
    cases hparts : parts with
    | nil =>
      apply he
      simp [hdrv, hroot, hparts]
    | cons p0 rest =>
      rw [hparts] at hjoin
      rw [joinSep_cons] at hjoin
      rcases List.append_eq_nil.mp hjoin with ⟨hp0, _⟩
      have := hp p0 (by simp [hparts])
      exact this.1 hp0

/-- Claim C4 (amended: path-valued parameters are restricted to values
whose canonical text does not re-parse with a drive that was not there,
i.e. the value has a drive or a root or its first component does not
start with a drive letter and a colon). For every registered parameter
variant and every value accepted by its constructor, rendering the
parameter to its "field_name,value" text and parsing that line back
returns exactly the same parameter — same concrete variant, same value,
with the empty value written as "field_name," and parsed back as the
absent value. -/
theorem parameter_text_roundtrip (V : PVariant) (raw : Str) (p : PParam)
    (h1 : mkParam V raw = .ok p) (h2 : goodParam p = true) :
    parseFromString (renderParam p) = .ok p ∧ p.variantOf = V := by
  cases V with
  | source =>
    cases hs : getSourceIdentifierForKey raw with
    | error e =>
      unfold mkParam at h1
      rw [hs] at h1
      cases h1
    | ok s =>
      unfold mkParam at h1
      rw [hs] at h1
      injection h1 with h1
      subst h1
      refine ⟨?_, rfl⟩
      show parseFromString (PVariant.source.fieldName ++ ',' :: (s.kind.keyChars ++ ':' :: s.identifier)) = _
      unfold parseFromString
      rw [splitFirst_append (fieldName_no_comma PVariant.source)]
      change parseFromKeyValue _ _ = _
      unfold parseFromKeyValue
      rw [show allParameters.find? (fun x => x.fieldName == PVariant.source.fieldName) =
        some PVariant.source from by decide]
      unfold mkParam
      rw [getSourceIdentifierForKey_ok s.kind s.identifier]
  | patientId =>
    simp only [mkParam, Except.ok.injEq] at h1
    subst h1
    by_cases hr : raw.isEmpty = true
    · rw [hr]
      exact ⟨rfl, rfl⟩
    · rw [if_neg hr]
      refine ⟨?_, rfl⟩
      show parseFromString (PVariant.patientId.fieldName ++ ',' :: raw) = _
      unfold parseFromString
      rw [splitFirst_append (fieldName_no_comma PVariant.patientId)]
      change parseFromKeyValue _ _ = _
      unfold parseFromKeyValue
      rw [show allParameters.find? (fun x => x.fieldName == PVariant.patientId.fieldName) =
        some PVariant.patientId from by decide]
      simp [mkParam, hr]
  | patientName =>
    simp only [mkParam, Except.ok.injEq] at h1
    subst h1
    by_cases hr : raw.isEmpty = true
    · rw [hr]
      exact ⟨rfl, rfl⟩
    · rw [if_neg hr]
      refine ⟨?_, rfl⟩
      show parseFromString (PVariant.patientName.fieldName ++ ',' :: raw) = _
      unfold parseFromString
      rw [splitFirst_append (fieldName_no_comma PVariant.patientName)]
      change parseFromKeyValue _ _ = _
      unfold parseFromKeyValue
      rw [show allParameters.find? (fun x => x.fieldName == PVariant.patientName.fieldName) =
        some PVariant.patientName from by decide]
      simp [mkParam, hr]
  | description =>
    simp only [mkParam, Except.ok.injEq] at h1
    subst h1
    by_cases hr : raw.isEmpty = true
    · rw [hr]
      exact ⟨rfl, rfl⟩
    · rw [if_neg hr]
      refine ⟨?_, rfl⟩
      show parseFromString (PVariant.description.fieldName ++ ',' :: raw) = _
      unfold parseFromString
      rw [splitFirst_append (fieldName_no_comma PVariant.description)]
      change parseFromKeyValue _ _ = _
      unfold parseFromKeyValue
      rw [show allParameters.find? (fun x => x.fieldName == PVariant.description.fieldName) =
        some PVariant.description from by decide]
      simp [mkParam, hr]
  | pimsKey =>
    simp only [mkParam, Except.ok.injEq] at h1
    subst h1
    by_cases hr : raw.isEmpty = true
    · rw [hr]
      exact ⟨rfl, rfl⟩
    · rw [if_neg hr]
      refine ⟨?_, rfl⟩
      show parseFromString (PVariant.pimsKey.fieldName ++ ',' :: raw) = _
      unfold parseFromString
      rw [splitFirst_append (fieldName_no_comma PVariant.pimsKey)]
      change parseFromKeyValue _ _ = _
      unfold parseFromKeyValue
      rw [show allParameters.find? (fun x => x.fieldName == PVariant.pimsKey.fieldName) =
        some PVariant.pimsKey from by decide]
      simp [mkParam, hr]
  | project =>
    simp only [mkParam, Except.ok.injEq] at h1
    subst h1
    by_cases hr : raw.isEmpty = true
    · rw [hr]
      exact ⟨rfl, rfl⟩
    · rw [if_neg hr]
      refine ⟨?_, rfl⟩
      show parseFromString (PVariant.project.fieldName ++ ',' :: raw) = _
      unfold parseFromString
      rw [splitFirst_append (fieldName_no_comma PVariant.project)]
      change parseFromKeyValue _ _ = _
      unfold parseFromKeyValue
      rw [show allParameters.find? (fun x => x.fieldName == PVariant.project.fieldName) =
        some PVariant.project from by decide]
      simp [mkParam, hr]
  | destinationPath =>
    simp only [mkParam, Except.ok.injEq] at h1
    subst h1
    by_cases hr : raw.isEmpty = true
    · rw [hr]
      exact ⟨rfl, rfl⟩
    · rw [if_neg hr]
      rw [if_neg hr] at h2
      have hgood := pwParse_good raw
      have hgs : goodShape (pwParse raw) = true := by simpa [goodParam] using h2
      have hidem := pwParse_pwRender (pwParse raw) hgood.1 hgood.2 hgs
      have hnn := pwRender_ne_nil (pwParse raw) hgood.2
      have hne : (pwRender (pwParse raw)).isEmpty = false := by
        cases hrw : pwRender (pwParse raw) with
        | nil => exact absurd hrw hnn
        | cons a b => rfl
      refine ⟨?_, rfl⟩
      show parseFromString (PVariant.destinationPath.fieldName ++ ',' :: pwRender (pwParse raw)) = _
      unfold parseFromString
      rw [splitFirst_append (fieldName_no_comma PVariant.destinationPath)]
      change parseFromKeyValue _ _ = _
      unfold parseFromKeyValue
      rw [show allParameters.find? (fun x => x.fieldName == PVariant.destinationPath.fieldName) =
        some PVariant.destinationPath from by decide]
      simp [mkParam, hne, hidem]
  | rootSourcePath =>
    simp only [mkParam, Except.ok.injEq] at h1
    subst h1
    by_cases hr : raw.isEmpty = true
    · rw [hr]
      exact ⟨rfl, rfl⟩
    · rw [if_neg hr]
      rw [if_neg hr] at h2
      have hgood := pwParse_good raw
      have hgs : goodShape (pwParse raw) = true := by simpa [goodParam] using h2
      have hidem := pwParse_pwRender (pwParse raw) hgood.1 hgood.2 hgs
      have hnn := pwRender_ne_nil (pwParse raw) hgood.2
      have hne : (pwRender (pwParse raw)).isEmpty = false := by
        cases hrw : pwRender (pwParse raw) with
        | nil => exact absurd hrw hnn
        | cons a b => rfl
      refine ⟨?_, rfl⟩
      show parseFromString (PVariant.rootSourcePath.fieldName ++ ',' :: pwRender (pwParse raw)) = _
      unfold parseFromString
      rw [splitFirst_append (fieldName_no_comma PVariant.rootSourcePath)]
      change parseFromKeyValue _ _ = _
      unfold parseFromKeyValue
      rw [show allParameters.find? (fun x => x.fieldName == PVariant.rootSourcePath.fieldName) =
        some PVariant.rootSourcePath from by decide]
      simp [mkParam, hne, hidem]

/-- Claim C4, witness: the destination path "data\\out" is accepted by
the constructor, satisfies the amended restriction, and round-trips to
exactly the same parameter. -/
theorem parameter_text_roundtrip_witness :
    parseFromString (renderParam c4WitnessParam) = .ok c4WitnessParam ∧
    c4WitnessParam.variantOf = PVariant.destinationPath :=
  parameter_text_roundtrip PVariant.destinationPath (("data\\out").data) c4WitnessParam
    (by rfl) (by decide)

/-- Claim C4, counterexample to the claim as stated: the value "./c:."
is accepted by the DestinationPath constructor (its PureWindowsPath
prints as "c:."), but parsing the rendered line "destination_path,c:."
back yields the path "c:" — a path with a drive and no components — so
the round-tripped parameter is not equal to the original under Python's
PurePath equality (casefolded parts comparison), nor structurally. -/
theorem parameter_text_roundtrip_counterexample :
    mkParam PVariant.destinationPath (("./c:.").data) = .ok c4BadParam ∧
    parseFromString (renderParam c4BadParam) =
      .ok (PParam.destinationPath (some (pwParse (("c:.").data)))) ∧
    pyValueEq (PParam.destinationPath (some (pwParse (("c:.").data)))) c4BadParam = false ∧
    PParam.destinationPath (some (pwParse (("c:.").data))) ≠ c4BadParam :=
  ⟨rfl, rfl, by decide, by decide⟩

theorem head?_append_left {α : Type} (a b : List α) (h : a ≠ []) : (a ++ b).head? = a.head? := by
  cases a with
  | nil => exact absurd rfl h
  | cons c t => rfl

theorem parseDescriptionLines_stop (l : Str) (rest : List Str) (h : l.head? ≠ some '#') :
    parseDescriptionLines (l :: rest) = ([], l :: rest) := by
  cases l with
  | nil => rfl
  | cons c t =>
    by_cases hc : c = '#'
    · exact absurd (by rw [hc]; rfl) h
    · simp [parseDescriptionLines, hc]

theorem parseDescriptionLines_collect : ∀ (desc : List Str) (l : Str) (rest2 : List Str),
    l.head? ≠ some '#' →
    parseDescriptionLines (desc.map (fun d => '#' :: d) ++ l :: rest2) = (desc, l :: rest2) := by
  intro desc
  induction desc with
  | nil =>
    intro l rest2 h
    exact parseDescriptionLines_stop l rest2 h
  | cons d ds ih =>
    intro l rest2 h
    simp only [List.map_cons, List.cons_append]
    simp [parseDescriptionLines, ih l rest2 h]

theorem goodCell_ne_nil {v : Option Str} (hg : goodCell v = true) : ∀ s, v = some s → s ≠ [] := by
  intro s hv hnil
  subst hv
  subst hnil
  simp [goodCell] at hg

theorem parseOptionLine_roundtrip (field : Str) (v : Option Str) (hf : ',' ∉ field)
    (hv : ∀ s, v = some s → s ≠ []) :
    parseOptionLine field (optionLine field v) = .ok v := by
  unfold parseOptionLine optionLine
  simp only [splitFirst_append hf]
  rw [if_pos trivial]
  cases v with
  | none => rfl
  | some s =>
    cases s with
    | nil => exact absurd rfl (hv [] rfl)
    | cons a b => rfl

theorem keyChars_ne_nil (k : IdKind) : k.keyChars ≠ [] := by
  cases k <;> decide

theorem parseSourceCell_roundtrip (s : Option SourceId) :
    parseSourceCell (sourceCell s) = .ok s := by
  cases s with
  | none => rfl
  | some si =>
    unfold sourceCell parseSourceCell
    have hne : (si.kind.keyChars ++ ':' :: si.identifier).isEmpty = false := by
      cases hk : si.kind.keyChars with
      | nil => exact absurd hk (keyChars_ne_nil si.kind)
      | cons a b => rfl
    rw [hne, if_neg Bool.false_ne_true, getSourceIdentifierForKey_ok si.kind si.identifier]

theorem parseRows_roundtrip : ∀ rows : List MRow,
    (∀ r ∈ rows, goodCell r.patientName = true ∧ goodCell r.patientId = true ∧
      goodCell r.description = true) →
    parseRows ((rows.map rowLines).flatten) = .ok rows := by
  intro rows
  induction rows with
  | nil => intro _; rfl
  | cons r rest ih =>
    intro h
    have hr := h r (List.mem_cons_self r rest)
    have hpn := parseOptionLine_roundtrip (("patient_name").data) r.patientName (by decide)
      (goodCell_ne_nil hr.1)
    have hpi := parseOptionLine_roundtrip (("patient_id").data) r.patientId (by decide)
      (goodCell_ne_nil hr.2.1)
    have hde := parseOptionLine_roundtrip (("description").data) r.description (by decide)
      (goodCell_ne_nil hr.2.2)
    have hrest := ih (fun x hx => h x (List.mem_cons_of_mem r hx))
    have h0 : splitFirst ',' (("source").data ++ ',' :: sourceCell r.source) =
        some (("source").data, sourceCell r.source) := splitFirst_append (by decide)
    have hsp : splitFirst ',' ('s' :: 'o' :: 'u' :: 'r' :: 'c' :: 'e' :: ',' :: sourceCell r.source) =
        some (("source").data, sourceCell r.source) := h0
    simp only [List.map_cons, List.flatten_cons, rowLines, List.cons_append, List.nil_append]
    simp only [parseRows, hsp]
    simp [parseSourceCell_roundtrip, hpn, hpi, hde, hrest]

/-- Claim C2 (spec-modelled): for every wellformed Mapping,
deserializing its serialized line-oriented text returns exactly the
original mapping — equal options, row order, row contents and
description (and dialect). -/
theorem mapping_serialization_roundtrip (m : Mapping) (h : m.wellformed = true) :
    deserializeMapping (serializeMapping m) = .ok m := by
  rcases m with ⟨dia, descLines, ⟨rsp, dp, proj, pk⟩, rows⟩
  unfold Mapping.wellformed at h
  dsimp only at h
  simp only [Bool.and_eq_true] at h
  obtain ⟨⟨⟨⟨⟨hdesc, hrsp⟩, hdp⟩, hproj⟩, hpk⟩, hrows⟩ := h
  have hdl : parseDialectLine (MDialect.markerLine dia) = .ok dia := by
    cases dia <;> rfl
  have hhead : (optionLine (("root_source_path").data) rsp).head? ≠ some '#' := by
    unfold optionLine
    rw [head?_append_left _ _ (by decide)]
    decide
  have hrsp2 := parseOptionLine_roundtrip (("root_source_path").data) rsp (by decide)
    (goodCell_ne_nil hrsp)
  have hdp2 := parseOptionLine_roundtrip (("destination_path").data) dp (by decide)
    (goodCell_ne_nil hdp)
  have hproj2 := parseOptionLine_roundtrip (("project").data) proj (by decide)
    (goodCell_ne_nil hproj)
  have hpk2 := parseOptionLine_roundtrip (("pims_key").data) pk (by decide)
    (goodCell_ne_nil hpk)
  have hrows2 : parseRows ((rows.map rowLines).flatten) = .ok rows := by
    apply parseRows_roundtrip
    intro r hrmem
    have := List.all_eq_true.mp hrows r hrmem
    simp only [Bool.and_eq_true] at this
    exact ⟨this.1.1.2, this.1.2, this.2⟩
  unfold serializeMapping deserializeMapping
  dsimp only
  rw [hdl]
  have hpdl := parseDescriptionLines_collect descLines
    (optionLine (("root_source_path").data) rsp)
    (optionLine (("destination_path").data) dp :: optionLine (("project").data) proj ::
      optionLine (("pims_key").data) pk :: (rows.map rowLines).flatten) hhead
  simp only [List.cons_append, List.nil_append, List.append_assoc] at hpdl ⊢
  rw [hpdl]
  simp [hrsp2, hdp2, hproj2, hpk2, hrows2]

/-- Claim C2, witness: a concrete two-row mapping with options, a
description and both a path-like and a PACS-like source is wellformed
and round-trips to itself. -/
theorem mapping_serialization_roundtrip_witness :
    c2WitnessMapping.wellformed = true ∧
    deserializeMapping (serializeMapping c2WitnessMapping) = .ok c2WitnessMapping :=
  ⟨by decide, mapping_serialization_roundtrip c2WitnessMapping (by decide)⟩

end Anonapi

